import Mathlib

/-!
Shallow embedding of `src/royaleapi_ranked_cache.py` (a crawler that fetches
ranked-deck listing pages, extracts match records, aggregates card usage and
persists a JSON cache), together with theorems settling the frozen claims.

Modelling conventions:
* Python strings are modelled as `List Char` (`Str`); byte/codepoint issues of
  Python `str` are out of scope.  All source string operations (`strip`,
  `lower`, substring search, the two regexes, `int(...)`) are re-implemented
  executably on `Str`.
* The HTML parsing library (BeautifulSoup) is the spec's declared black box
  "parse(html) → queryable tree"; a parsed page is a `Node` tree and the CSS
  `select` calls of the source are modelled by `selectOne`/`selectGroup`
  (document-order descendant filtering), restricted to the selector forms the
  source actually uses (`tag.class`, `tag[attr]`, `tag[attr*=sub]`).
* `requests.get`, `time.sleep`, the clock and the file system are external
  effects: the crawl loop takes a fetch oracle `Str → Option Node` (the parsed
  body of a successful fetch, `none` for a failed/falsy fetch), sleeping is a
  no-op, timestamps and the JSON serializer are parameters, and writes to the
  output file are recorded in the run result rather than performed.
-/

/-- Python strings, modelled as lists of characters. -/
abbrev Str := List Char

/-- Lowercase a string (Python `str.lower`, ASCII-faithful). -/
def lowerL (s : Str) : Str := s.map Char.toLower

/-- Python `str.strip()`: drop leading and trailing whitespace. -/
def trimL (s : Str) : Str :=
  ((s.dropWhile Char.isWhitespace).reverse.dropWhile Char.isWhitespace).reverse

/-- Python `sub in s`: contiguous substring test. -/
def strContainsL (s sub : Str) : Bool :=
  match s with
  | [] => sub.isEmpty
  | _ :: rest => sub.isPrefixOf s || strContainsL rest sub

/-- Python string `<=` (lexicographic by code point), as a Boolean. -/
def strLe (a b : Str) : Bool :=
  match a, b with
  | [], _ => true
  | _ :: _, [] => false
  | c :: cs, d :: ds => c < d || (c = d && strLe cs ds)

/-- Python string `<` (lexicographic by code point), as a Boolean. -/
def strLt (a b : Str) : Bool :=
  match a, b with
  | [], [] => false
  | [], _ :: _ => true
  | _ :: _, [] => false
  | c :: cs, d :: ds => c < d || (c = d && strLt cs ds)

/-- Numeric value of a decimal digit string (underscores already removed). -/
def digitsVal (s : Str) : Nat :=
  s.foldl (fun acc c => acc * 10 + (c.toNat - '0'.toNat)) 0

/-- Python `int` literal digit grammar after the sign: digits with single
underscores strictly between digits (`1_0` is legal, `_1`, `1_`, `1__0` are
not). -/
def uOk : Str → Bool
  | [] => false
  | [c] => c.isDigit
  | c :: c2 :: r =>
    c.isDigit && (if c2 = '_' then uOk r else uOk (c2 :: r))

/-- Python `int(s)`: strip whitespace, optional sign, decimal digits with
legal underscores; `none` when the text is not a valid integer literal
(the callers' `try/except` path). -/
def pyInt? (s : Str) : Option Int :=
  let t := trimL s
  match t with
  | '+' :: r => if uOk r then some (digitsVal (r.filter (· ≠ '_')) : Nat) else none
  | '-' :: r => if uOk r then some (-(digitsVal (r.filter (· ≠ '_')) : Nat)) else none
  | r => if uOk r then some (digitsVal (r.filter (· ≠ '_')) : Nat) else none

/-- Hex digit test for percent-decoding. -/
def isHexDigit (c : Char) : Bool :=
  c.isDigit || ('a' ≤ c && c ≤ 'f') || ('A' ≤ c && c ≤ 'F')

/-- Value of a hex digit. -/
def hexVal (c : Char) : Nat :=
  if c.isDigit then c.toNat - '0'.toNat
  else if 'a' ≤ c && c ≤ 'f' then c.toNat - 'a'.toNat + 10
  else c.toNat - 'A'.toNat + 10

/-- Python `urllib.parse.unquote_plus` on ASCII data: `+` to space, `%XX` to
the character with that code (multi-byte UTF-8 sequences are out of the
model), malformed escapes kept verbatim. -/
def unquotePlus : Str → Str
  | [] => []
  | '+' :: r => ' ' :: unquotePlus r
  | '%' :: a :: b :: r =>
    if isHexDigit a && isHexDigit b then
      Char.ofNat (hexVal a * 16 + hexVal b) :: unquotePlus r
    else '%' :: unquotePlus (a :: b :: r)
  | c :: r => c :: unquotePlus r

/-! ## The parsed-HTML tree and the selectors the source uses -/

mutual

/-- A parsed HTML node: the black-box "queryable tree" of the spec.  The
`class` attribute lives in `attrs` like any other attribute.  (The child
list is its own inductive `NodeL`, mutually with `Node`, so that the
document-order traversal below is structurally recursive and evaluates in
the kernel.) -/
inductive Node where
  | elem (tag : Str) (attrs : List (Str × Str)) (children : NodeL)
  | text (s : Str)

/-- A list of sibling nodes. -/
inductive NodeL where
  | nil
  | cons (head : Node) (tail : NodeL)

end

/-- Build a `NodeL` from a plain list of nodes. -/
def nodes : List Node → NodeL
  | [] => .nil
  | n :: r => .cons n (nodes r)

/-- An element node with its children given as a plain list. -/
def elemOf (tag : Str) (attrs : List (Str × Str)) (children : List Node) :
    Node :=
  .elem tag attrs (nodes children)

/-- `node.get(name)`: the first attribute with the given name. -/
def Node.attr (n : Node) (name : Str) : Option Str :=
  match n with
  | .text _ => none
  | .elem _ attrs _ => (attrs.find? (fun p => p.1 = name)).map (·.2)

/-- The whitespace-split `class` attribute (BeautifulSoup's class list). -/
def Node.classes (n : Node) : List Str :=
  ((n.attr "class".toList).getD []).splitOnP Char.isWhitespace

/-- The CSS selector forms appearing in the source: `tag.class`,
`tag[attr]`, `tag[attr*=sub]`. -/
inductive Sel where
  | tagClass (tag cls : Str)
  | tagAttrPresent (tag attr : Str)
  | tagAttrContains (tag attr sub : Str)

/-- Whether one simple selector matches one node. -/
def selMatches (s : Sel) (n : Node) : Bool :=
  match n with
  | .text _ => false
  | .elem tag _ _ =>
    match s with
    | .tagClass t c => tag = t && (n.classes).contains c
    | .tagAttrPresent t a => tag = t && (n.attr a).isSome
    | .tagAttrContains t a sub =>
      tag = t && strContainsL ((n.attr a).getD []) sub

mutual

/-- Strict descendants of one node in document order (what `el.select`
searches). -/
def Node.desc : Node → List Node
  | .text _ => []
  | .elem _ _ cs => NodeL.desc cs

/-- All nodes of a sibling list and their descendants, in document
(pre-)order: each node followed by its own descendants. -/
def NodeL.desc : NodeL → List Node
  | .nil => []
  | .cons c rest => c :: (Node.desc c ++ NodeL.desc rest)

end

/-- `el.select(sel)` for a single simple selector: matching descendants in
document order. -/
def selectOne (el : Node) (s : Sel) : List Node :=
  el.desc.filter (selMatches s)

/-- `el.select("s1, s2, ...")` for a selector group: descendants matching any
alternative, each listed once, in document order. -/
def selectGroup (el : Node) (g : List Sel) : List Node :=
  el.desc.filter (fun n => g.any (fun s => selMatches s n))

/-! ## Source constants -/

/-- `BATTLE_SELECTORS` of the source. -/
def BATTLE_SELECTORS : List Sel :=
  [ .tagClass "div".toList "battle_list_battle".toList,
    .tagClass "div".toList "battle_list_battle_container".toList,
    .tagClass "div".toList "battle".toList,
    .tagClass "div".toList "battle__container".toList ]

/-- `CARD_IMG_SELECTOR = "img.deck_card, img[data-card-key]"` of the source,
as a selector group. -/
def CARD_IMG_SELECTOR : List Sel :=
  [ .tagClass "img".toList "deck_card".toList,
    .tagAttrPresent "img".toList "data-card-key".toList ]

/-- `TEAM_SELECTORS` of the source. -/
def TEAM_SELECTORS : List Sel :=
  [ .tagClass "div".toList "team-segment".toList,
    .tagClass "div".toList "team_segment".toList,
    .tagClass "div".toList "team".toList ]

/-- `BLOCK_TEXT_MARKERS` of the source. -/
def BLOCK_TEXT_MARKERS : List Str :=
  [ "just a moment".toList,
    "cf-browser-verification".toList,
    "checking your browser before accessing".toList ]

/-- `looks_like_block_page`: some marker occurs in the lowercased body. -/
def looks_like_block_page (html : Str) : Bool :=
  BLOCK_TEXT_MARKERS.any (fun marker => strContainsL (lowerL html) marker)

/-! ## Card-key extraction (`parse_deck_keys_from_imgs`) -/

/-- Characters of the regex class `[a-z0-9\-]`. -/
def isKeyChar (c : Char) : Bool :=
  ('a' ≤ c && c ≤ 'z') || c.isDigit || c = '-'

/-- A match of the regex `/cards/([a-z0-9\-]+)/` anchored at the head of the
list: the group when the literal prefix, a nonempty maximal key-char run and
the closing slash are all present (greedy `+` followed by `/` admits exactly
the maximal run). -/
def cardsMatchAt (l : Str) : Option Str :=
  if "/cards/".toList.isPrefixOf l then
    let rest := l.drop 7
    let run := rest.takeWhile isKeyChar
    if !run.isEmpty && (rest.drop run.length).headI = '/' &&
        !(rest.drop run.length).isEmpty then
      some run
    else none
  else none

/-- `re.search(r"/cards/([a-z0-9\-]+)/", src)`: the group of the leftmost
match. -/
def searchCards : Str → Option Str
  | [] => none
  | c :: r =>
    match cardsMatchAt (c :: r) with
    | some g => some g
    | none => searchCards r

/-- The card key one `img` element yields: the stripped `data-card-key`
attribute when nonempty, else the `/cards/<key>/` segment of its stripped
`src`; `none` when neither yields a key (the image is skipped). -/
def imgKey (img : Node) : Option Str :=
  let key := trimL ((img.attr "data-card-key".toList).getD [])
  if !key.isEmpty then some key
  else searchCards (trimL ((img.attr "src".toList).getD []))

/-- `parse_deck_keys_from_imgs`: the keys of the images that yield one, in
order. -/
def parse_deck_keys_from_imgs (imgs : List Node) : List Str :=
  imgs.filterMap imgKey

/-- `_parse_deck_from_segment`: keys of the card images inside a segment. -/
def parse_deck_from_segment (seg : Node) : List Str :=
  parse_deck_keys_from_imgs (selectGroup seg CARD_IMG_SELECTOR)

/-! ## Match extraction -/

/-- One extracted match: the winner's and loser's card keys. -/
structure RMatch where
  winner : List Str
  loser : List Str
deriving DecidableEq

/-- The team segments of a battle element: each team selector's matches, in
selector order, concatenated (`team_segments.extend(el.select(sel))`). -/
def teamSegments (el : Node) : List Node :=
  TEAM_SELECTORS.flatMap (fun sel => selectOne el sel)

/-- The team-segment stage of `parse_matches_from_battle_el` (its lines
146-154): when at least two segments exist and the first two each yield at
least eight keys, the first's keys (truncated to 8) are the winner and the
second's the loser. -/
def viaSegments (el : Node) : Option RMatch :=
  match teamSegments el with
  | s0 :: s1 :: _ =>
    let winner := parse_deck_from_segment s0
    let loser := parse_deck_from_segment s1
    if 8 ≤ winner.length && 8 ≤ loser.length then
      some ⟨winner.take 8, loser.take 8⟩
    else none
  | _ => none

/-- The flat fallback of `parse_matches_from_battle_el` (its lines 156-162):
all card keys inside the element, in order, cut to the first 16 and split
8/8; nothing when fewer than 16 keys exist. -/
def flatSplit (el : Node) : List RMatch :=
  let keys := parse_deck_keys_from_imgs (selectGroup el CARD_IMG_SELECTOR)
  if keys.length < 16 then []
  else
    let ks := keys.take 16
    [⟨ks.take 8, ks.drop 8⟩]

/-- `parse_matches_from_battle_el`: team-segment split when two segments with
eight keys each exist, else the flat 16-card split, else nothing. -/
def parse_matches_from_battle_el (el : Node) : List RMatch :=
  match viaSegments el with
  | some m => [m]
  | none => flatSplit el

/-- The loop `for i in range(0, len(keys) - 15, 16)` of `parse_matches`,
with the fuel argument bounding the number of iterations. -/
def chunks16Go : Nat → List Str → List RMatch
  | 0, _ => []
  | fuel + 1, keys =>
    if keys.length < 16 then []
    else
      let chunk := keys.take 16
      ⟨chunk.take 8, chunk.drop 8⟩ :: chunks16Go fuel (keys.drop 16)

/-- Whole-page chunking: consecutive groups of 16 keys, split 8/8. -/
def chunks16 (keys : List Str) : List RMatch :=
  chunks16Go keys.length keys

/-- The battle-block elements of a page: each battle selector's matches, in
selector order, concatenated. -/
def battleEls (page : Node) : List Node :=
  BATTLE_SELECTORS.flatMap (fun sel => selectOne page sel)

/-- The contribution of one battle element inside `parse_matches`: nothing
when it holds fewer than 16 card-image elements, else its extracted
matches. -/
def battleElContrib (el : Node) : List RMatch :=
  if (selectGroup el CARD_IMG_SELECTOR).length < 16 then []
  else parse_matches_from_battle_el el

/-- `parse_matches`: per-battle-block extraction when battle blocks exist,
else whole-page chunking of all card keys. -/
def parse_matches (page : Node) : List RMatch :=
  let battle_els := battleEls page
  if !battle_els.isEmpty then
    battle_els.flatMap battleElContrib
  else
    chunks16 (parse_deck_keys_from_imgs (selectGroup page CARD_IMG_SELECTOR))

/-! ## Aggregation (`card_counts` and the top-card ranking of `main`) -/

/-- One `counts[k] = counts.get(k, 0) + 1` update on an insertion-ordered
association list (the Python dict). -/
def bump : List (Str × Nat) → Str → List (Str × Nat)
  | [], k => [(k, 1)]
  | (k', n) :: rest, k =>
    if k' = k then (k', n + 1) :: rest else (k', n) :: bump rest k

/-- The card keys `card_counts` iterates over: winner side then loser side of
each match, empty keys skipped. -/
def countedKeys (ms : List RMatch) : List Str :=
  ms.flatMap (fun m => (m.winner ++ m.loser).filter (fun k => !k.isEmpty))

/-- `card_counts`: occurrence counts of every nonempty card key, as the
insertion-ordered association list of the Python dict. -/
def card_counts (ms : List RMatch) : List (Str × Nat) :=
  (countedKeys ms).foldl bump []

/-- The sort key `lambda x: (-x[1], x[0])` of `main`, as a Boolean order:
count descending, ties by key ascending. -/
def cardLE (a b : Str × Nat) : Bool :=
  b.2 < a.2 || (a.2 = b.2 && strLe a.1 b.1)

/-- `sorted(counts.items(), key=lambda x: (-x[1], x[0]))[:3]` of `main`. -/
def top_cards (counts : List (Str × Nat)) : List (Str × Nat) :=
  (counts.mergeSort cardLE).take 3

/-- Round-half-to-even to an integer (Python `round` tie behaviour), on
exact rationals. -/
def roundHalfEven (q : ℚ) : ℤ :=
  let n := ⌊q⌋
  let frac := q - n
  if frac < 1/2 then n
  else if 1/2 < frac then n + 1
  else if n % 2 = 0 then n else n + 1

/-- Python `round(x, 2)`, modelled exactly on rationals (the source's float
arithmetic is modelled by exact rational arithmetic). -/
def pyRound2 (q : ℚ) : ℚ :=
  (roundHalfEven (q * 100) : ℚ) / 100

/-- One entry of the `topCards` output list. -/
structure CardStat where
  key : Str
  count : Nat
  rate : ℚ
deriving DecidableEq

/-- The `top_cards_out` comprehension of `main`:
`rate = round((v / total_matches) * 100, 2) if total_matches else 0.0`. -/
def top_cards_out (counts : List (Str × Nat)) (total_matches : Nat) :
    List CardStat :=
  (top_cards counts).map (fun p =>
    ⟨p.1, p.2,
      if total_matches ≠ 0 then
        pyRound2 ((p.2 : ℚ) / (total_matches : ℚ) * 100)
      else 0⟩)

/-! ## The page fetcher (`fetch_html`) -/

/-- What one `requests.get` attempt produced: a transport exception, or a
response with its status code and body text. -/
inductive AttemptOutcome where
  | exn
  | resp (status : Nat) (text : Str)
deriving DecidableEq

/-- Whether an attempt is a success (`status == 200` and no block marker);
its body when so. -/
def successBody : AttemptOutcome → Option Str
  | .exn => none
  | .resp status text =>
    if status = 200 && !looks_like_block_page text then some text else none

/-- The retry loop of `fetch_html` from attempt number `i` with `n` attempts
remaining: body of the first successful attempt, `none` when all remaining
attempts fail softly (the sleeps between attempts are no-ops in the
model). -/
def fetchFrom (attempts : Nat → AttemptOutcome) : Nat → Nat → Option Str
  | _, 0 => none
  | i, n + 1 =>
    match successBody (attempts i) with
    | some t => some t
    | none => fetchFrom attempts (i + 1) n

/-- `fetch_html`, over an oracle giving each attempt's outcome (attempt
numbers start at 1 as in the source). -/
def fetch_html (attempts : Nat → AttemptOutcome) (max_attempts : Nat) :
    Option Str :=
  fetchFrom attempts 1 max_attempts

/-! ## Pagination cursor (`extract_next_before`) -/

/-- Attribute rendering for `str(soup)`: ` key="value"` pairs in stored
order (entity escaping is out of the model). -/
def renderAttrs (attrs : List (Str × Str)) : Str :=
  attrs.flatMap (fun p => ' ' :: (p.1 ++ '=' :: '"' :: p.2 ++ ['"']))

mutual

/-- Serialization of one node, modelling `str(soup)`: the tag with its
attributes, the children, and the closing tag. -/
def Node.render : Node → Str
  | .text s => s
  | .elem t a cs =>
    '<' :: (t ++ renderAttrs a ++ ['>']) ++ NodeL.render cs ++
      ('<' :: '/' :: (t ++ ['>']))

/-- Serialization of a sibling list. -/
def NodeL.render : NodeL → Str
  | .nil => []
  | .cons c rest => Node.render c ++ NodeL.render rest

end

/-- `str(soup)` for one node. -/
def render (n : Node) : Str := Node.render n

/-- `urlparse(href).query`: the part after the first `?` of the part before
the first `#`; empty when there is no `?`. -/
def urlQuery (href : Str) : Str :=
  let beforeFrag := href.takeWhile (fun c => c ≠ '#')
  ((beforeFrag.dropWhile (fun c => c ≠ '?')).drop 1)

/-- One `name=value` piece of a query string, as `parse_qsl` treats it:
`none` when the piece is empty, has no `=`, or has an empty value (blank
values are dropped); both halves are `unquote_plus`-decoded. -/
def qsPair (piece : Str) : Option (Str × Str) :=
  if piece.isEmpty then none
  else if !piece.contains '=' then none
  else
    let name := piece.takeWhile (fun c => c ≠ '=')
    let value := (piece.dropWhile (fun c => c ≠ '=')).drop 1
    if value.isEmpty then none
    else some (unquotePlus name, unquotePlus value)

/-- `parse_qs(query)` restricted to what the source reads: the pairs, in
order, after splitting on `&`. -/
def parseQsl (query : Str) : List (Str × Str) :=
  (query.splitOnP (fun c => c = '&')).filterMap qsPair

/-- What one anchor contributes in `extract_next_before`'s loop: the parsed
first `before` value of its `href`'s query, `none` when the key is absent or
`int` fails. -/
def anchorBefore (a : Node) : Option Int :=
  let href := (a.attr "href".toList).getD []
  ((parseQsl (urlQuery href)).find? (fun p => p.1 = "before".toList)).bind
    (fun p => pyInt? p.2)

/-- A match of the regex `before=(\d+)` anchored at the head of the list:
the digit group. -/
def beforeMatchAt (l : Str) : Option Str :=
  if "before=".toList.isPrefixOf l then
    let run := (l.drop 7).takeWhile Char.isDigit
    if !run.isEmpty then some run else none
  else none

/-- `re.search(r"before=(\d+)", text)`: the group of the leftmost match. -/
def searchBefore : Str → Option Str
  | [] => none
  | c :: r =>
    match beforeMatchAt (c :: r) with
    | some g => some g
    | none => searchBefore r

/-- The selector `a[href*='before=']` of `extract_next_before`. -/
def BEFORE_ANCHOR_SELECTOR : List Sel :=
  [ .tagAttrContains "a".toList "href".toList "before=".toList ]

/-- `extract_next_before`: the first anchor value, else the regex fallback
over the serialized page. -/
def extract_next_before (page : Node) : Option Int :=
  match (selectGroup page BEFORE_ANCHOR_SELECTOR).findSome? anchorBefore with
  | some v => some v
  | none => (searchBefore (render page)).bind pyInt?

/-! ## URL building (`build_url`) -/

/-- Decimal digits of a natural number, most significant first (fuelled so
that it evaluates in the kernel). -/
def natToStrGo : Nat → Nat → Str
  | 0, _ => []
  | fuel + 1, n =>
    if n < 10 then [Char.ofNat ('0'.toNat + n)]
    else natToStrGo fuel (n / 10) ++ [Char.ofNat ('0'.toNat + n % 10)]

/-- Python `str` of an integer. -/
def intToStr (i : Int) : Str :=
  if i < 0 then '-' :: natToStrGo (i.natAbs + 1) i.natAbs
  else natToStrGo (i.toNat + 1) i.toNat

/-- `quote_plus` safe characters: letters, digits, `_`, `.`, `-`, `~`. -/
def quoteSafe (c : Char) : Bool :=
  c.isAlpha || c.isDigit || c = '_' || c = '.' || c = '-' || c = '~'

/-- Uppercase hex digits of a byte. -/
def hexByte (n : Nat) : Str :=
  let d := fun k => if k < 10 then Char.ofNat ('0'.toNat + k)
                    else Char.ofNat ('A'.toNat + (k - 10))
  [d (n / 16), d (n % 16)]

/-- `urllib.parse.quote_plus` on ASCII data: space to `+`, safe characters
kept, the rest percent-encoded. -/
def quotePlus (s : Str) : Str :=
  s.flatMap (fun c =>
    if c = ' ' then ['+']
    else if quoteSafe c then [c]
    else '%' :: hexByte (c.toNat % 256))

/-- `urlencode(params)` for the parameter list `build_url` constructs. -/
def urlencode (params : List (Str × Str)) : Str :=
  List.intercalate (['&'] : Str)
    (params.map (fun p => quotePlus p.1 ++ '=' :: quotePlus p.2))

/-- `BASE` of the source. -/
def BASE : Str := "https://royaleapi.com".toList

/-- `build_url(rank, lang, before)`. -/
def build_url (rank : Int) (lang : Str) (before : Option Int) : Str :=
  let params :=
    [("lang".toList, lang), ("rank".toList, intToStr rank)] ++
      (match before with
       | some b => [("before".toList, intToStr b)]
       | none => [])
  BASE ++ "/decks/ranked?".toList ++ urlencode params

/-! ## The crawl orchestrator (`main`) -/

/-- The command-line configuration `main` reads (`args`). -/
structure Config where
  limit : Int
  rank : Int
  lang : Str
  out : Str
  allow_empty_success : Bool

/-- `for m in matches: if len(results) >= limit: break; results.append(m)`. -/
def appendUpTo (limit : Int) : List RMatch → List RMatch → List RMatch
  | results, [] => results
  | results, m :: rest =>
    if limit ≤ (results.length : Int) then results
    else appendUpTo limit (results ++ [m]) rest

/-- What a crawl produced: the accumulated matches, the URLs fetched in
order, and whether the model's fuel ran out before the loop terminated on
its own. -/
structure CrawlOut where
  results : List RMatch
  fetches : List Str
  outOfFuel : Bool
deriving DecidableEq

/-- The Python truthiness test `not next_before`: `None` and `0` are both
falsy. -/
def cursorFalsy : Option Int → Bool
  | none => true
  | some v => v = 0

/-- The `while len(results) < args.limit` crawl loop of `main`, over a fetch
oracle `url ↦ parsed page` (`none` models a failed fetch or falsy body).
Each iteration fetches, parses, appends up to the limit, and advances or
stops on the extracted cursor exactly as the source does; `fuel` bounds the
iteration count so the model is total. -/
def crawlLoop (fetch : Str → Option Node) (cfg : Config) :
    Nat → List RMatch → Option Int → CrawlOut
  | 0, results, _ => ⟨results, [], true⟩
  | fuel + 1, results, before =>
    if (results.length : Int) < cfg.limit then
      let url := build_url cfg.rank cfg.lang before
      match fetch url with
      | none => ⟨results, [url], false⟩
      | some page =>
        let ms := parse_matches page
        if ms.isEmpty then ⟨results, [url], false⟩
        else
          let results' := appendUpTo cfg.limit results ms
          let next_before := extract_next_before page
          if cursorFalsy next_before || next_before = before then
            ⟨results', [url], false⟩
          else
            let rest := crawlLoop fetch cfg fuel results' next_before
            ⟨rest.results, url :: rest.fetches, rest.outOfFuel⟩
    else ⟨results, [], false⟩

/-- The payload `main` builds for a successful run. -/
structure Payload where
  fetchedAt : Str
  source : Str
  rankGate : Int
  limit : Int
  totalMatches : Nat
  topCards : List CardStat
  matchList : List RMatch

/-- The outcome of one `main` run: its exit code and the payload it replaced
the output file with (`none`: the run performed no write, replace or delete
of the cache file). -/
structure RunOut where
  exitCode : Int
  written : Option Payload

/-- The tail of `main` after the crawl loop: the zero-match early return
(exit 0 or 2, no write) or the aggregation, atomic write and exit 0.
`now` stands for `datetime.now(...).isoformat()`. -/
def mainRun (fetch : Str → Option Node) (cfg : Config) (now : Str)
    (fuel : Nat) : RunOut :=
  let results := (crawlLoop fetch cfg fuel [] none).results
  let counts := card_counts results
  let total_matches := results.length
  if total_matches = 0 then
    ⟨if cfg.allow_empty_success then 0 else 2, none⟩
  else
    ⟨0, some
      ⟨now, "royaleapi.com/decks/ranked".toList, cfg.rank, cfg.limit,
        total_matches, top_cards_out counts total_matches, results⟩⟩

/-- The output cache file after a run, given its content before the run and
the black-box JSON serializer `dump`: unchanged when the run wrote nothing,
else the dumped payload (`os.replace` of the temp file). -/
def finalOutFile (prior : Option Str) (r : RunOut) (dump : Payload → Str) :
    Option Str :=
  match r.written with
  | none => prior
  | some p => some (dump p)

/-! ## Concrete inputs used by witnesses and counterexamples -/

/-- Shorthand: a list of string literals as `Str` values. -/
def strs (l : List String) : List Str := l.map String.toList

/-- An `img` element carrying an explicit `data-card-key`. -/
def imgK (k : Str) : Node :=
  elemOf "img".toList [("data-card-key".toList, k)] []

/-- A card-image element (`img.deck_card`) yielding no key: no data
attribute, no usable `src`. -/
def imgNK : Node :=
  elemOf "img".toList [("class".toList, "deck_card".toList)] []

/-- A `div` with one class and the given children. -/
def divOf (cls : Str) (children : List Node) : Node :=
  elemOf "div".toList [("class".toList, cls)] children

/-- A battle block with two team segments of eight keyed images each. -/
def battleTwoSegs : Node :=
  divOf "battle".toList
    [ divOf "team-segment".toList
        ((strs ["a1", "a2", "a3", "a4", "a5", "a6", "a7", "a8"]).map imgK),
      divOf "team-segment".toList
        ((strs ["b1", "b2", "b3", "b4", "b5", "b6", "b7", "b8"]).map imgK) ]

/-- A page holding exactly `battleTwoSegs`. -/
def pageTwoSegs : Node := elemOf "html".toList [] [battleTwoSegs]

/-- A battle-block-free page with 128 keyed card images (8 matches worth). -/
def page128 : Node :=
  elemOf "body".toList [] (List.replicate 128 (imgK "x".toList))

/-- A battle block with 16 card-image elements of which only 8 yield a key:
a `team-segment` wrapping a nested `team` around the 8 keyed images, plus 8
keyless images. -/
def battleNested : Node :=
  divOf "battle".toList
    [ divOf "team-segment".toList
        [divOf "team".toList
          ((strs ["k1", "k2", "k3", "k4", "k5", "k6", "k7", "k8"]).map imgK)],
      divOf "filler".toList (List.replicate 8 imgNK) ]

/-- A page holding exactly `battleNested`. -/
def pageNested : Node := elemOf "html".toList [] [battleNested]

/-- A `div.team-segment` holding keys a1..a8. -/
def segA10 : Node :=
  divOf "team-segment".toList
    ((strs ["a1", "a2", "a3", "a4", "a5", "a6", "a7", "a8"]).map imgK)

/-- A `div.team` holding keys b1..b8. -/
def segB10 : Node :=
  divOf "team".toList
    ((strs ["b1", "b2", "b3", "b4", "b5", "b6", "b7", "b8"]).map imgK)

/-- A battle block whose `div.team` segment precedes its `div.team-segment`
segment in document order. -/
def battleTeamFirst : Node :=
  divOf "battle".toList [segB10, segA10]

/-- An anchor with a given `href`. -/
def anchorOf (href : Str) : Node :=
  elemOf "a".toList [("href".toList, href)] []

/-- A page with one 16-key match and a pagination anchor `?before=0`. -/
def pageCursor0 : Node :=
  elemOf "html".toList []
    (List.replicate 16 (imgK "k".toList) ++ [anchorOf "?before=0".toList])

/-- A page with one 16-key match and a pagination anchor `?before=7`. -/
def pageCursor7 : Node :=
  elemOf "html".toList []
    (List.replicate 16 (imgK "k".toList) ++ [anchorOf "?before=7".toList])

/-- A configuration with a large limit, used by concrete runs. -/
def cfg1000 : Config :=
  ⟨1000, 1000, "en".toList, "scripts/royaleapi_ranked_cache.json".toList, false⟩

/-- Definition following the spec's words on whole-page chunking: "take all
card-image elements in document order and partition into consecutive groups
of 16 (incomplete trailing groups are dropped), each group producing one
Match under the same winner/loser split" — the i-th group being keys
16·i .. 16·i+15, its first 8 the winner and its last 8 the loser, with
exactly `keys.length / 16` groups.  Stated per the spec for comparison with
the source's `chunks16`. -/
def specChunks (keys : List Str) : List RMatch :=
  (List.range (keys.length / 16)).map (fun i =>
    ⟨((keys.drop (16 * i)).take 16).take 8, ((keys.drop (16 * i)).take 16).drop 8⟩)

/-- The count an association list (the Python dict `counts`) holds for a
key, 0 when absent. -/
def lookupCount (counts : List (Str × Nat)) (k : Str) : Nat :=
  ((counts.find? (fun p => p.1 = k)).map (·.2)).getD 0

/-- Occurrences of one key across both winner and loser sides of all
matches (what "counts every occurrence with no deduplication" asks for). -/
def countOcc (ms : List RMatch) (k : Str) : Nat :=
  List.count k (ms.flatMap (fun m => m.winner ++ m.loser))

/-- A concrete match list for the aggregator witness: the key "a" appears
on both sides of the one match, keys "h" and "i" once each. -/
def msC7 : List RMatch :=
  [⟨strs ["a", "b", "c", "d", "e", "f", "g", "h"],
    strs ["a", "b", "c", "d", "e", "f", "g", "i"]⟩]

/-- The same configuration with `allow-empty-success` set. -/
def cfgAllow : Config :=
  ⟨1000, 1000, "en".toList, "scripts/royaleapi_ranked_cache.json".toList, true⟩

/-- A configuration with limit 5 (the spec's mid-page scenario). -/
def cfg5 : Config :=
  ⟨5, 1000, "en".toList, "scripts/royaleapi_ranked_cache.json".toList, false⟩

/-- A fetch oracle serving `pageCursor7` for the first page only. -/
def fetchC3 : Str → Option Node := fun u =>
  if u = build_url 1000 "en".toList none then some pageCursor7 else none

/-- A concrete attempt oracle: attempt 1 gets HTTP 500, attempt 2 a blocked
200 page, every later attempt a clean 200 page. -/
def attemptsC8 : Nat → AttemptOutcome := fun i =>
  if i = 1 then .resp 500 "server error".toList
  else if i = 2 then .resp 200 "Just a moment...".toList
  else .resp 200 "<html>ok</html>".toList

/-! ## Lemmas about the extractor -/

/-- A match produced by the team-segment stage has exactly eight keys per
side. -/
theorem viaSegments_lengths (el : Node) (m : RMatch)
    (hm : viaSegments el = some m) :
    m.winner.length = 8 ∧ m.loser.length = 8 := by
  unfold viaSegments at hm
  rcases hts : teamSegments el with _ | ⟨s0, _ | ⟨s1, rest⟩⟩ <;>
    rw [hts] at hm
  · simp at hm
  · simp at hm
  · simp only [] at hm
    split at hm
    · rename_i hok
      simp only [Bool.and_eq_true, decide_eq_true_eq] at hok
      simp only [Option.some.injEq] at hm
      subst hm
      refine ⟨?_, ?_⟩ <;> simp only [List.length_take] <;> omega
    · exact absurd hm (by simp)

/-- A match produced by the flat 16-card split has exactly eight keys per
side. -/
theorem flatSplit_lengths (el : Node) (m : RMatch)
    (hm : m ∈ flatSplit el) :
    m.winner.length = 8 ∧ m.loser.length = 8 := by
  simp only [flatSplit] at hm
  split at hm
  · simp at hm
  · rename_i hlen
    push_neg at hlen
    simp only [List.mem_singleton] at hm
    subst hm
    refine ⟨?_, ?_⟩ <;>
      simp only [List.length_take, List.length_drop] <;> omega

/-- Every match returned by `parse_matches_from_battle_el` has exactly eight
winner keys and eight loser keys. -/
theorem battle_el_match_lengths (el : Node) (m : RMatch)
    (hm : m ∈ parse_matches_from_battle_el el) :
    m.winner.length = 8 ∧ m.loser.length = 8 := by
  unfold parse_matches_from_battle_el at hm
  cases hv : viaSegments el with
  | none =>
    rw [hv] at hm
    exact flatSplit_lengths el m hm
  | some m' =>
    rw [hv] at hm
    simp only [List.mem_singleton] at hm
    subst hm
    exact viaSegments_lengths el _ hv

/-- Every match produced by the chunking loop has exactly eight keys per
side. -/
theorem chunks16Go_lengths (fuel : Nat) (keys : List Str) (m : RMatch)
    (hm : m ∈ chunks16Go fuel keys) :
    m.winner.length = 8 ∧ m.loser.length = 8 := by
  induction fuel generalizing keys with
  | zero => simp [chunks16Go] at hm
  | succ f ih =>
    simp only [chunks16Go] at hm
    split at hm
    · simp at hm
    · rename_i hlen
      push_neg at hlen
      rcases List.mem_cons.mp hm with h | h
      · subst h
        refine ⟨?_, ?_⟩ <;>
          simp only [List.length_take, List.length_drop] <;> omega
      · exact ih _ h

/-- C1: every Match record emitted by `parse_matches`, on any of its tiers
(team-segment split, flat 16-card split per battle block, or whole-page
chunking), has a winner sequence of exactly 8 card keys and a loser sequence
of exactly 8 card keys; no match of any other cardinality is emitted. -/
theorem c1_match_cardinality (page : Node) (m : RMatch)
    (hm : m ∈ parse_matches page) :
    m.winner.length = 8 ∧ m.loser.length = 8 := by
  simp only [parse_matches] at hm
  split at hm
  · rcases List.mem_flatMap.mp hm with ⟨el, _, hmel⟩
    unfold battleElContrib at hmel
    split at hmel
    · simp at hmel
    · exact battle_el_match_lengths el m hmel
  · exact chunks16Go_lengths _ _ m hm

/-- C1 witness: the theorem applied to a concrete page with one battle block
of two 8-card team segments. -/
theorem c1_match_cardinality_witness :
    (⟨strs ["a1", "a2", "a3", "a4", "a5", "a6", "a7", "a8"],
      strs ["b1", "b2", "b3", "b4", "b5", "b6", "b7", "b8"]⟩ : RMatch).winner.length = 8 ∧
    (⟨strs ["a1", "a2", "a3", "a4", "a5", "a6", "a7", "a8"],
      strs ["b1", "b2", "b3", "b4", "b5", "b6", "b7", "b8"]⟩ : RMatch).loser.length = 8 :=
  c1_match_cardinality pageTwoSegs _ (by decide)

/-- Unfolding one group of the spec-side partition when at least 16 keys
remain. -/
theorem specChunks_cons (keys : List Str) (h : ¬ keys.length < 16) :
    specChunks keys =
      ⟨(keys.take 16).take 8, (keys.take 16).drop 8⟩ :: specChunks (keys.drop 16) := by
  unfold specChunks
  have hlen : keys.length / 16 = (keys.drop 16).length / 16 + 1 := by
    simp only [List.length_drop]
    omega
  rw [hlen, List.range_succ_eq_map, List.map_cons, List.map_map]
  refine congrArg₂ List.cons ?_ ?_
  · simp
  · apply List.map_congr_left
    intro i hi
    simp only [Function.comp_apply, List.drop_drop]
    have h16 : 16 + 16 * i = 16 * i.succ := by omega
    rw [h16]

/-- The chunking loop agrees with the spec-side partition description once
the fuel covers the list. -/
theorem chunks16Go_spec (fuel : Nat) (keys : List Str)
    (h : keys.length ≤ fuel) :
    chunks16Go fuel keys = specChunks keys := by
  induction fuel generalizing keys with
  | zero =>
    have : keys = [] := List.eq_nil_of_length_eq_zero (Nat.le_zero.mp h)
    subst this
    simp [chunks16Go, specChunks]
  | succ f ih =>
    by_cases hlt : keys.length < 16
    · simp [chunks16Go, hlt, specChunks, Nat.div_eq_of_lt hlt]
    · simp only [chunks16Go, if_neg hlt]
      rw [ih (keys.drop 16) (by simp only [List.length_drop]; omega),
        specChunks_cons keys hlt]

/-- `chunks16` is exactly the spec's partition into consecutive groups of
16. -/
theorem chunks16_eq_specChunks (keys : List Str) :
    chunks16 keys = specChunks keys :=
  chunks16Go_spec keys.length keys le_rfl

/-- A battle element with at least 16 key-yielding card images contributes
exactly one match inside `parse_matches`. -/
theorem battleElContrib_length_one (el : Node)
    (hk : 16 ≤ (parse_deck_from_segment el).length) :
    (battleElContrib el).length = 1 := by
  have hsel : ¬ (selectGroup el CARD_IMG_SELECTOR).length < 16 := by
    have := List.length_filterMap_le imgKey (selectGroup el CARD_IMG_SELECTOR)
    simp only [parse_deck_from_segment, parse_deck_keys_from_imgs] at hk
    omega
  unfold battleElContrib
  rw [if_neg hsel]
  unfold parse_matches_from_battle_el
  cases hv : viaSegments el with
  | some m => simp
  | none =>
    simp only [parse_deck_from_segment] at hk
    simp only [flatSplit]
    rw [if_neg (by omega)]
    rfl

/-- C6: on a page where no battle selector matches anything, `parse_matches`
is exactly the whole-page chunking — `floor(n / 16)` matches, the i-th built
from the i-th consecutive group of 16 keys (first 8 winner, next 8 loser),
incomplete trailing groups dropped; when battle blocks are present, the
output is the per-block contribution, and each block with at least 16
key-yielding card images produces exactly one match. -/
theorem c6_fallback_tiers (page : Node) :
    (battleEls page = [] →
      parse_matches page =
        specChunks (parse_deck_keys_from_imgs (selectGroup page CARD_IMG_SELECTOR)) ∧
      (parse_matches page).length =
        (parse_deck_keys_from_imgs (selectGroup page CARD_IMG_SELECTOR)).length / 16) ∧
    (battleEls page ≠ [] →
      parse_matches page = (battleEls page).flatMap battleElContrib ∧
      ∀ el ∈ battleEls page, 16 ≤ (parse_deck_from_segment el).length →
        (battleElContrib el).length = 1) := by
  constructor
  · intro hb
    have hpm : parse_matches page =
        chunks16 (parse_deck_keys_from_imgs (selectGroup page CARD_IMG_SELECTOR)) := by
      simp [parse_matches, hb]
    rw [hpm, chunks16_eq_specChunks]
    refine ⟨rfl, ?_⟩
    simp [specChunks]
  · intro hb
    refine ⟨?_, ?_⟩
    · simp only [parse_matches]
      rw [if_pos]
      simp [List.isEmpty_iff, hb]
    · intro el _ hk
      exact battleElContrib_length_one el hk

set_option maxRecDepth 8000 in
/-- C6 witness: on the concrete battle-free page with 128 keyed images the
theorem gives exactly 128 / 16 = 8 matches. -/
theorem c6_fallback_tiers_witness : (parse_matches page128).length = 8 :=
  (((c6_fallback_tiers page128).1 (by rfl)).2).trans (by decide)

/-- C10: the team segments of a battle element are gathered by iterating the
team-selector list in its fixed priority order and concatenating each
selector's matches; the winner deck comes from the first element of this
concatenation and the loser from the second, so when the two segments match
different selectors the winner/loser assignment follows selector precedence
rather than document order, and segments beyond the first two are
ignored. -/
theorem c10_team_selector_precedence (el : Node) (s0 s1 : Node)
    (rest : List Node) (hseg : teamSegments el = s0 :: s1 :: rest)
    (hw : 8 ≤ (parse_deck_from_segment s0).length)
    (hl : 8 ≤ (parse_deck_from_segment s1).length) :
    parse_matches_from_battle_el el =
      [⟨(parse_deck_from_segment s0).take 8, (parse_deck_from_segment s1).take 8⟩] ∧
    teamSegments el = TEAM_SELECTORS.flatMap (fun sel => selectOne el sel) := by
  refine ⟨?_, rfl⟩
  unfold parse_matches_from_battle_el viaSegments
  rw [hseg]
  simp [hw, hl]

/-- C10 witness: in a concrete battle block where the `div.team` segment
(keys b1..b8) precedes the `div.team-segment` segment (keys a1..a8) in
document order, the winner is still taken from the `div.team-segment`. -/
theorem c10_team_selector_precedence_witness :
    parse_matches_from_battle_el battleTeamFirst =
      [⟨(parse_deck_from_segment segA10).take 8,
        (parse_deck_from_segment segB10).take 8⟩] ∧
    teamSegments battleTeamFirst =
      TEAM_SELECTORS.flatMap (fun sel => selectOne battleTeamFirst sel) :=
  c10_team_selector_precedence battleTeamFirst segA10 segB10 []
    (by rfl) (by decide) (by decide)

/-- C5 counterexample: in `battleNested` only 8 of the 16 card-image
elements yield a key, so under the claim's reading ("the at-least-16 gate
... satisfied only by images that yielded a key") the block would be
disqualified and no match emitted; the code's gate counts card-image
elements, the block qualifies, and a match is emitted. -/
theorem c5_gate_counterexample :
    (selectGroup battleNested CARD_IMG_SELECTOR).length = 16 ∧
    (parse_deck_from_segment battleNested).length = 8 ∧
    battleEls pageNested = [battleNested] ∧
    parse_matches pageNested =
      [⟨strs ["k1", "k2", "k3", "k4", "k5", "k6", "k7", "k8"],
        strs ["k1", "k2", "k3", "k4", "k5", "k6", "k7", "k8"]⟩] :=
  ⟨by decide, by decide, by rfl, by decide⟩

/-- C5 amended: an image yielding no key is skipped and counts toward none
of the *key* thresholds (the at-least-8-per-side and at-least-16-key
requirements), but the at-least-16 gate that qualifies a candidate
battle-block container counts card-image *elements*, keyed or not: a
container with fewer than 16 such elements contributes nothing. -/
theorem c5_keyless_images_amended (l1 l2 : List Node) (img : Node)
    (hk : imgKey img = none) (el : Node)
    (hlt : (selectGroup el CARD_IMG_SELECTOR).length < 16) :
    parse_deck_keys_from_imgs (l1 ++ img :: l2) =
      parse_deck_keys_from_imgs (l1 ++ l2) ∧
    battleElContrib el = [] := by
  constructor
  · simp [parse_deck_keys_from_imgs, List.filterMap_append,
      List.filterMap_cons, hk]
  · unfold battleElContrib
    rw [if_pos hlt]

/-- C5 amended witness: dropping a concrete keyless image from a concrete
image list, and a concrete 8-image container contributing nothing. -/
theorem c5_keyless_images_amended_witness :
    parse_deck_keys_from_imgs ([imgK "q".toList] ++ imgNK :: [imgK "r".toList]) =
      parse_deck_keys_from_imgs ([imgK "q".toList] ++ [imgK "r".toList]) ∧
    battleElContrib segA10 = [] :=
  c5_keyless_images_amended [imgK "q".toList] [imgK "r".toList] imgNK
    (by decide) segA10 (by decide)

/-! ## Lemmas about the aggregator -/

/-- `lookupCount` on a cons cell. -/
theorem lookupCount_cons (a : Str) (b : Nat) (rest : List (Str × Nat)) (k : Str) :
    lookupCount ((a, b) :: rest) k = if a = k then b else lookupCount rest k := by
  simp only [lookupCount, List.find?]
  by_cases h : a = k
  · simp [h]
  · simp [h]

/-- One `bump` adds one to the bumped key's count and leaves the others. -/
theorem bump_lookup (acc : List (Str × Nat)) (k0 k : Str) :
    lookupCount (bump acc k0) k =
      if k = k0 then lookupCount acc k + 1 else lookupCount acc k := by
  induction acc with
  | nil =>
    by_cases h : k = k0
    · subst h
      simp [bump, lookupCount_cons, lookupCount]
    · simp [bump, lookupCount_cons, lookupCount, h, Ne.symm h]
  | cons p rest ih =>
    obtain ⟨a, b⟩ := p
    by_cases hk : a = k0
    · subst hk
      by_cases h : k = a
      · subst h
        simp [bump, lookupCount_cons]
      · simp [bump, lookupCount_cons, h, Ne.symm h]
    · by_cases h : a = k
      · subst h
        simp [bump, hk, lookupCount_cons, Ne.symm hk]
      · simp [bump, hk, lookupCount_cons, h, ih]

/-- Folding `bump` over a key list adds each key's multiplicity. -/
theorem foldl_bump_lookup (keys : List Str) (acc : List (Str × Nat)) (k : Str) :
    lookupCount (keys.foldl bump acc) k =
      lookupCount acc k + List.count k keys := by
  induction keys generalizing acc with
  | nil => simp
  | cons k0 rest ih =>
    simp only [List.foldl_cons, ih, bump_lookup, List.count_cons]
    by_cases h : k = k0
    · simp [h]
      omega
    · simp [h, Ne.symm h]

/-- `card_counts` counts exactly the occurrences of each nonempty key
across both sides of all matches (no deduplication). -/
theorem card_counts_lookup (ms : List RMatch) (k : Str) (hk : k ≠ []) :
    lookupCount (card_counts ms) k = countOcc ms k := by
  unfold card_counts countOcc
  rw [foldl_bump_lookup]
  have h0 : lookupCount [] k = 0 := rfl
  rw [h0, Nat.zero_add]
  have hp : (!k.isEmpty) = true := by
    cases k with
    | nil => exact absurd rfl hk
    | cons c r => rfl
  unfold countedKeys
  induction ms with
  | nil => simp
  | cons m rest ih =>
    simp only [List.flatMap_cons, List.count_append, ih]
    rw [@List.count_filter Str _ _ (fun x : Str => !x.isEmpty) k
      (m.winner ++ m.loser) hp, List.count_append]

/-- The key column of `bump acc k0`: unchanged when `k0` is present, `k0`
appended when absent. -/
theorem bump_map_fst (acc : List (Str × Nat)) (k0 : Str) :
    (bump acc k0).map Prod.fst =
      if k0 ∈ acc.map Prod.fst then acc.map Prod.fst
      else acc.map Prod.fst ++ [k0] := by
  induction acc with
  | nil => simp [bump]
  | cons p rest ih =>
    obtain ⟨a, b⟩ := p
    by_cases h : a = k0
    · subst h
      simp [bump]
    · simp only [bump, if_neg h, List.map_cons, ih]
      by_cases hm : k0 ∈ rest.map Prod.fst
      · simp [hm, h, Ne.symm h]
      · simp [hm, h, Ne.symm h]

/-- `bump` preserves distinctness of the dict's keys. -/
theorem bump_nodup (acc : List (Str × Nat)) (k0 : Str)
    (h : (acc.map Prod.fst).Nodup) : ((bump acc k0).map Prod.fst).Nodup := by
  rw [bump_map_fst]
  split
  · exact h
  · rename_i hm
    rw [List.nodup_append]
    refine ⟨h, List.nodup_singleton k0, ?_⟩
    intro a ha hb
    rw [List.mem_singleton] at hb
    subst hb
    exact hm ha

/-- Folding `bump` preserves distinctness of the dict's keys. -/
theorem foldl_bump_nodup (keys : List Str) (acc : List (Str × Nat))
    (h : (acc.map Prod.fst).Nodup) :
    ((keys.foldl bump acc).map Prod.fst).Nodup := by
  induction keys generalizing acc with
  | nil => exact h
  | cons k0 rest ih => exact ih (bump acc k0) (bump_nodup acc k0 h)

/-- The keys of `card_counts` are pairwise distinct. -/
theorem card_counts_nodup (ms : List RMatch) :
    ((card_counts ms).map Prod.fst).Nodup :=
  foldl_bump_nodup (countedKeys ms) [] (by simp)

/-- Totality of the Python string order. -/
theorem strLe_total (a b : Str) : strLe a b = true ∨ strLe b a = true := by
  induction a generalizing b with
  | nil => left; rfl
  | cons c cs ih =>
    cases b with
    | nil => right; rfl
    | cons d ds =>
      rcases lt_trichotomy c d with h | h | h
      · left; simp [strLe, h]
      · subst h
        rcases ih ds with h2 | h2
        · left; simp [strLe, h2]
        · right; simp [strLe, h2]
      · right; simp [strLe, h]

/-- Transitivity of the Python string order. -/
theorem strLe_trans (a b c : Str) (h1 : strLe a b = true)
    (h2 : strLe b c = true) : strLe a c = true := by
  induction a generalizing b c with
  | nil => rfl
  | cons x xs ih =>
    cases b with
    | nil => simp [strLe] at h1
    | cons y ys =>
      cases c with
      | nil => simp [strLe] at h2
      | cons z zs =>
        simp only [strLe, Bool.or_eq_true, Bool.and_eq_true,
          decide_eq_true_eq] at h1 h2 ⊢
        rcases h1 with h1 | ⟨he1, h1⟩
        · rcases h2 with h2 | ⟨he2, h2⟩
          · left; exact lt_trans h1 h2
          · left; exact he2 ▸ h1
        · rcases h2 with h2 | ⟨he2, h2⟩
          · left; exact he1 ▸ h2
          · right; exact ⟨he1.trans he2, ih ys zs h1 h2⟩

/-- A weak string inequality between different strings is strict. -/
theorem strLt_of_le_ne (a b : Str) (h : strLe a b = true) (hne : a ≠ b) :
    strLt a b = true := by
  induction a generalizing b with
  | nil =>
    cases b with
    | nil => exact absurd rfl hne
    | cons d ds => rfl
  | cons c cs ih =>
    cases b with
    | nil => simp [strLe] at h
    | cons d ds =>
      simp only [strLe, Bool.or_eq_true, Bool.and_eq_true,
        decide_eq_true_eq] at h
      simp only [strLt, Bool.or_eq_true, Bool.and_eq_true, decide_eq_true_eq]
      rcases h with h | ⟨he, h⟩
      · left; exact h
      · subst he
        right
        refine ⟨rfl, ih ds h ?_⟩
        intro hcs
        exact hne (by rw [hcs])

/-- Totality of the `(-count, key)` sort order. -/
theorem cardLE_total (a b : Str × Nat) :
    cardLE a b = true ∨ cardLE b a = true := by
  unfold cardLE
  rcases lt_trichotomy a.2 b.2 with h | h | h
  · right; simp [h]
  · rcases strLe_total a.1 b.1 with h2 | h2
    · left; simp [h, h2]
    · right; simp [h, h2]
  · left; simp [h]

/-- Transitivity of the `(-count, key)` sort order. -/
theorem cardLE_trans (a b c : Str × Nat) (h1 : cardLE a b = true)
    (h2 : cardLE b c = true) : cardLE a c = true := by
  unfold cardLE at h1 h2 ⊢
  simp only [Bool.or_eq_true, Bool.and_eq_true, decide_eq_true_eq] at h1 h2 ⊢
  rcases h1 with h1 | ⟨he1, h1⟩
  · rcases h2 with h2 | ⟨he2, h2⟩
    · left; omega
    · left; omega
  · rcases h2 with h2 | ⟨he2, h2⟩
    · left; omega
    · right; exact ⟨by omega, strLe_trans _ _ _ h1 h2⟩

/-- The sorted counts are pairwise ordered by `cardLE`. -/
theorem mergeSort_cardLE_sorted (counts : List (Str × Nat)) :
    List.Pairwise (fun a b => cardLE a b = true) (counts.mergeSort cardLE) :=
  List.sorted_mergeSort
    (fun a b c h1 h2 => cardLE_trans a b c h1 h2)
    (fun a b => by
      rcases cardLE_total a b with h | h <;> simp [h])
    counts

/-- `top_cards` is strictly ordered: count descending, ties by key strictly
ascending. -/
theorem top_cards_strict (counts : List (Str × Nat))
    (h : (counts.map Prod.fst).Nodup) :
    List.Pairwise
      (fun a b : Str × Nat => b.2 < a.2 ∨ (a.2 = b.2 ∧ strLt a.1 b.1 = true))
      (top_cards counts) := by
  have hperm := List.mergeSort_perm counts cardLE
  have hsorted := mergeSort_cardLE_sorted counts
  have hnodup : ((counts.mergeSort cardLE).map Prod.fst).Nodup :=
    ((hperm.map Prod.fst).symm).nodup h
  have hne : List.Pairwise (fun a b : Str × Nat => a.1 ≠ b.1)
      (counts.mergeSort cardLE) := List.pairwise_map.mp hnodup
  have hcomb := hsorted.and hne
  have hstrict : List.Pairwise
      (fun a b : Str × Nat => b.2 < a.2 ∨ (a.2 = b.2 ∧ strLt a.1 b.1 = true))
      (counts.mergeSort cardLE) := hcomb.imp (fun hab => by
    obtain ⟨hle, hne2⟩ := hab
    unfold cardLE at hle
    simp only [Bool.or_eq_true, Bool.and_eq_true, decide_eq_true_eq] at hle
    rcases hle with h2 | ⟨he, h2⟩
    · exact Or.inl h2
    · exact Or.inr ⟨he, strLt_of_le_ne _ _ h2 hne2⟩)
  exact hstrict.sublist (List.take_sublist 3 _)

/-- Every entry dropped by the top-3 truncation ranks no better than any
kept entry. -/
theorem top_cards_complete (counts : List (Str × Nat)) :
    ∀ x ∈ counts, x ∉ top_cards counts →
      ∀ y ∈ top_cards counts, cardLE y x = true := by
  intro x hx hnx y hy
  have hperm := List.mergeSort_perm counts cardLE
  have hsorted := mergeSort_cardLE_sorted counts
  have hsx : x ∈ counts.mergeSort cardLE := hperm.mem_iff.mpr hx
  have hsplit := List.take_append_drop 3 (counts.mergeSort cardLE)
  rw [← hsplit] at hsorted hsx
  rcases List.mem_append.mp hsx with hmem | hmem
  · exact absurd hmem hnx
  · exact ((List.pairwise_append.mp hsorted).2.2) y hy x hmem

/-- Membership in `top_cards` comes from the counts dict. -/
theorem top_cards_subset (counts : List (Str × Nat)) :
    ∀ y ∈ top_cards counts, y ∈ counts := by
  intro y hy
  exact (List.mergeSort_perm counts cardLE).mem_iff.mp
    (List.mem_of_mem_take hy)

/-- C7: the aggregator counts every occurrence of every (nonempty) card key
across both winner and loser sides with no deduplication; `topCards` is
drawn from those counts, has at most 3 entries, is strictly sorted by count
descending with ties broken by key strictly ascending, omits only entries
ranking no better than every kept entry, and each output entry's rate is
`round(count / totalMatches * 100, 2)` with rate 0.0 when
`totalMatches = 0`. -/
theorem c7_aggregator (ms : List RMatch) :
    (∀ k : Str, k ≠ [] → lookupCount (card_counts ms) k = countOcc ms k) ∧
    (∀ y ∈ top_cards (card_counts ms), y ∈ card_counts ms) ∧
    (top_cards (card_counts ms)).length ≤ 3 ∧
    List.Pairwise
      (fun a b : Str × Nat => b.2 < a.2 ∨ (a.2 = b.2 ∧ strLt a.1 b.1 = true))
      (top_cards (card_counts ms)) ∧
    (∀ x ∈ card_counts ms, x ∉ top_cards (card_counts ms) →
      ∀ y ∈ top_cards (card_counts ms), cardLE y x = true) ∧
    top_cards_out (card_counts ms) ms.length =
      (top_cards (card_counts ms)).map (fun p =>
        ⟨p.1, p.2,
          if ms.length ≠ 0 then pyRound2 ((p.2 : ℚ) / (ms.length : ℚ) * 100)
          else 0⟩) := by
  refine ⟨fun k hk => card_counts_lookup ms k hk,
    top_cards_subset (card_counts ms),
    ?_,
    top_cards_strict (card_counts ms) (card_counts_nodup ms),
    top_cards_complete (card_counts ms),
    rfl⟩
  unfold top_cards
  simp [List.length_take]

/-- C7 witness: the theorem applied to a concrete one-match list; the key
"a" (appearing on both sides of the single match) is counted twice. -/
theorem c7_aggregator_witness :
    lookupCount (card_counts msC7) "a".toList = countOcc msC7 "a".toList ∧
    lookupCount (card_counts msC7) "a".toList = 2 :=
  ⟨(c7_aggregator msC7).1 "a".toList (by decide), by decide⟩

/-! ## Lemmas about the fetcher -/

/-- What `successBody = some t` means: a 200 response with body `t` free of
block markers. -/
theorem successBody_eq_some (o : AttemptOutcome) (t : Str) :
    successBody o = some t ↔
      o = .resp 200 t ∧ looks_like_block_page t = false := by
  cases o with
  | exn =>
    simp [successBody]
  | resp s txt =>
    simp only [successBody]
    by_cases hs : (s = 200 && !looks_like_block_page txt) = true
    · rw [if_pos hs]
      simp only [Bool.and_eq_true, decide_eq_true_eq, Bool.not_eq_true'] at hs
      obtain ⟨h200, hb⟩ := hs
      subst h200
      constructor
      · intro h
        injection h with h
        subst h
        exact ⟨rfl, hb⟩
      · rintro ⟨h, _⟩
        injection h with h1 h2
        rw [h2]
    · rw [if_neg hs]
      constructor
      · intro h
        cases h
      · rintro ⟨h, hb2⟩
        injection h with h1 h2
        subst h1
        subst h2
        exact absurd (by simp [hb2]) hs

/-- The retry loop returns `some t` exactly when some attempt in its window
is the first success and delivers `t`. -/
theorem fetchFrom_some_iff (attempts : Nat → AttemptOutcome) (i n : Nat)
    (t : Str) :
    fetchFrom attempts i n = some t ↔
      ∃ j, i ≤ j ∧ j < i + n ∧ successBody (attempts j) = some t ∧
        ∀ l, i ≤ l → l < j → successBody (attempts l) = none := by
  induction n generalizing i with
  | zero =>
    simp only [fetchFrom]
    constructor
    · intro h
      cases h
    · rintro ⟨j, h1, h2, _⟩
      omega
  | succ n ih =>
    simp only [fetchFrom]
    cases hs : successBody (attempts i) with
    | some t' =>
      simp only [Option.some.injEq]
      constructor
      · rintro rfl
        exact ⟨i, le_rfl, by omega, hs, fun l hl1 hl2 => by omega⟩
      · rintro ⟨j, hj1, hj2, hj3, hj4⟩
        by_cases hji : j = i
        · subst hji
          rw [hs] at hj3
          exact Option.some_inj.mp hj3
        · have := hj4 i le_rfl (by omega)
          rw [hs] at this
          cases this
    | none =>
      rw [ih (i + 1)]
      constructor
      · rintro ⟨j, hj1, hj2, hj3, hj4⟩
        refine ⟨j, by omega, by omega, hj3, fun l hl1 hl2 => ?_⟩
        by_cases hli : l = i
        · subst hli
          exact hs
        · exact hj4 l (by omega) hl2
      · rintro ⟨j, hj1, hj2, hj3, hj4⟩
        have hji : j ≠ i := by
          intro hji
          subst hji
          rw [hs] at hj3
          cases hj3
        exact ⟨j, by omega, by omega, hj3, fun l hl1 hl2 => hj4 l (by omega) hl2⟩

/-- The retry loop returns `none` exactly when every attempt in its window
fails softly. -/
theorem fetchFrom_none_iff (attempts : Nat → AttemptOutcome) (i n : Nat) :
    fetchFrom attempts i n = none ↔
      ∀ j, i ≤ j → j < i + n → successBody (attempts j) = none := by
  induction n generalizing i with
  | zero =>
    simp only [fetchFrom]
    constructor
    · intro _ j h1 h2
      omega
    · intro _
      trivial
  | succ n ih =>
    simp only [fetchFrom]
    cases hs : successBody (attempts i) with
    | some t' =>
      constructor
      · intro h
        cases h
      · intro h
        have := h i le_rfl (by omega)
        rw [hs] at this
        cases this
    | none =>
      rw [ih (i + 1)]
      constructor
      · intro h j hj1 hj2
        by_cases hji : j = i
        · subst hji
          exact hs
        · exact h j (by omega) (by omega)
      · intro h j hj1 hj2
        exact h j (by omega) (by omega)

/-- C8: `fetch_html` returns the body of the first attempt (among at most
`max_attempts`) whose status is 200 and whose body carries no
case-insensitive block marker, and returns `none` exactly when every
attempt is a soft failure (non-200, marker present, or exception); a 200
response containing a marker is never returned. -/
theorem c8_fetch_first_success (attempts : Nat → AttemptOutcome)
    (max_attempts : Nat) :
    (∀ t, fetch_html attempts max_attempts = some t ↔
      ∃ i, 1 ≤ i ∧ i ≤ max_attempts ∧ attempts i = .resp 200 t ∧
        looks_like_block_page t = false ∧
        ∀ j, 1 ≤ j → j < i → successBody (attempts j) = none) ∧
    (fetch_html attempts max_attempts = none ↔
      ∀ i, 1 ≤ i → i ≤ max_attempts → successBody (attempts i) = none) := by
  constructor
  · intro t
    unfold fetch_html
    rw [fetchFrom_some_iff]
    constructor
    · rintro ⟨j, h1, h2, h3, h4⟩
      rw [successBody_eq_some] at h3
      exact ⟨j, h1, by omega, h3.1, h3.2, h4⟩
    · rintro ⟨i, h1, h2, h3, h4, h5⟩
      exact ⟨i, h1, by omega, (successBody_eq_some _ _).mpr ⟨h3, h4⟩, h5⟩
  · unfold fetch_html
    rw [fetchFrom_none_iff]
    constructor
    · intro h i h1 h2
      exact h i h1 (by omega)
    · intro h j h1 h2
      exact h j h1 (by omega)

/-- C8 witness: with a 500 then a blocked 200 then a clean 200, three
attempts return the third body and two attempts return nothing. -/
theorem c8_fetch_first_success_witness :
    fetch_html attemptsC8 3 = some "<html>ok</html>".toList ∧
    fetch_html attemptsC8 2 = none :=
  ⟨((c8_fetch_first_success attemptsC8 3).1 _).mpr
      ⟨3, by omega, by omega, by decide, by decide,
        fun j h1 h2 => by interval_cases j <;> decide⟩,
    (c8_fetch_first_success attemptsC8 2).2.mpr
      (fun i h1 h2 => by interval_cases i <;> decide)⟩

/-! ## Lemmas about the crawl orchestrator -/

/-- C2: a run that collects zero matches performs no write, replace or
delete of the output cache file, so the prior cache file's contents (if
any) are byte-for-byte unchanged. -/
theorem c2_zero_matches_no_write (fetch : Str → Option Node) (cfg : Config)
    (now : Str) (fuel : Nat) (prior : Option Str) (dump : Payload → Str)
    (h : (crawlLoop fetch cfg fuel [] none).results = []) :
    (mainRun fetch cfg now fuel).written = none ∧
    finalOutFile prior (mainRun fetch cfg now fuel) dump = prior := by
  have hlen : (crawlLoop fetch cfg fuel [] none).results.length = 0 := by
    rw [h]
    rfl
  constructor
  · simp [mainRun, hlen]
  · simp [mainRun, finalOutFile, hlen]

/-- C2 witness: a run whose every fetch fails leaves a concrete prior cache
file untouched. -/
theorem c2_zero_matches_no_write_witness :
    (mainRun (fun _ => none) cfg1000 "t".toList 1).written = none ∧
    finalOutFile (some "old-cache".toList)
      (mainRun (fun _ => none) cfg1000 "t".toList 1)
      (fun _ => "new".toList) = some "old-cache".toList :=
  c2_zero_matches_no_write (fun _ => none) cfg1000 "t".toList 1
    (some "old-cache".toList) (fun _ => "new".toList) (by rfl)

/-- C9: the exit code is 0 when at least one match was collected (and the
payload was then written), 0 on zero matches with `allow-empty-success`
set, and nonzero (2) exactly on zero matches without the flag. -/
theorem c9_exit_codes (fetch : Str → Option Node) (cfg : Config) (now : Str)
    (fuel : Nat) :
    ((crawlLoop fetch cfg fuel [] none).results ≠ [] →
      (mainRun fetch cfg now fuel).exitCode = 0 ∧
      (mainRun fetch cfg now fuel).written.isSome = true) ∧
    ((crawlLoop fetch cfg fuel [] none).results = [] →
      (mainRun fetch cfg now fuel).exitCode =
        (if cfg.allow_empty_success then 0 else 2)) ∧
    ((mainRun fetch cfg now fuel).exitCode ≠ 0 ↔
      ((crawlLoop fetch cfg fuel [] none).results = [] ∧
        cfg.allow_empty_success = false)) := by
  by_cases h : (crawlLoop fetch cfg fuel [] none).results = []
  · have hlen : (crawlLoop fetch cfg fuel [] none).results.length = 0 := by
      rw [h]
      rfl
    refine ⟨fun hne => absurd h hne, fun _ => ?_, ?_⟩
    · simp [mainRun, hlen]
    · cases hflag : cfg.allow_empty_success <;>
        simp [mainRun, hlen, hflag, h]
  · have hlen : (crawlLoop fetch cfg fuel [] none).results.length ≠ 0 := by
      intro h0
      exact h (List.eq_nil_of_length_eq_zero h0)
    refine ⟨fun _ => ?_, fun he => absurd he h, ?_⟩
    · simp [mainRun, hlen]
    · simp [mainRun, hlen, h]

/-- C9 witness: a failed crawl exits 2 without the flag and 0 with it; a
crawl that collects one match exits 0. -/
theorem c9_exit_codes_witness :
    (mainRun (fun _ => none) cfg1000 "t".toList 1).exitCode = 2 ∧
    (mainRun (fun _ => none) cfgAllow "t".toList 1).exitCode = 0 ∧
    (mainRun (fun _ => some pageCursor0) cfg1000 "t".toList 1).exitCode = 0 :=
  ⟨((c9_exit_codes (fun _ => none) cfg1000 "t".toList 1).2.1 (by rfl)).trans
      (by decide),
    ((c9_exit_codes (fun _ => none) cfgAllow "t".toList 1).2.1 (by rfl)).trans
      (by decide),
    ((c9_exit_codes (fun _ => some pageCursor0) cfg1000 "t".toList 1).1
      (by decide)).1⟩

/-- `appendUpTo` keeps exactly the first matches up to the limit, in
order. -/
theorem appendUpTo_take (limit : Int) (ms results : List RMatch)
    (h : (results.length : Int) ≤ limit) :
    appendUpTo limit results ms =
      results ++ ms.take ((limit - results.length).toNat) := by
  induction ms generalizing results with
  | nil => simp [appendUpTo]
  | cons m rest ih =>
    by_cases hfull : limit ≤ (results.length : Int)
    · have hz : ((limit - results.length : Int)).toNat = 0 := by omega
      simp [appendUpTo, hfull, hz]
    · have hlt : (results.length : Int) < limit := by omega
      simp only [appendUpTo, if_neg hfull]
      rw [ih (results ++ [m]) (by simp; omega)]
      have hk : ((limit - results.length : Int)).toNat =
          ((limit - ((results ++ [m]).length : Int)).toNat) + 1 := by
        simp only [List.length_append, List.length_singleton]
        push_cast
        omega
      rw [hk, List.take_succ_cons, List.append_assoc, List.singleton_append]

/-- Once the limit is reached, the loop's guard fails immediately: nothing
more is accumulated and nothing more is fetched. -/
theorem crawlLoop_done (fetch : Str → Option Node) (cfg : Config)
    (fuel : Nat) (results : List RMatch) (b : Option Int)
    (h : ¬ (results.length : Int) < cfg.limit) :
    (crawlLoop fetch cfg fuel results b).results = results ∧
    (crawlLoop fetch cfg fuel results b).fetches = [] := by
  cases fuel with
  | zero => exact ⟨rfl, rfl⟩
  | succ f => simp [crawlLoop, h]

/-- C4: when a fetched page yields more matches than the remaining capacity
before the limit, the orchestrator keeps exactly the first matches up to
the limit in extraction order, accepts no more, and fetches no further
page. -/
theorem c4_limit_midpage (fetch : Str → Option Node) (cfg : Config)
    (fuel : Nat) (results : List RMatch) (before : Option Int) (page : Node)
    (hlt : (results.length : Int) < cfg.limit)
    (hf : fetch (build_url cfg.rank cfg.lang before) = some page)
    (hms : parse_matches page ≠ [])
    (hover : cfg.limit <
      (results.length : Int) + (parse_matches page).length) :
    (crawlLoop fetch cfg (fuel + 1) results before).results =
      results ++
        (parse_matches page).take ((cfg.limit - results.length).toNat) ∧
    (crawlLoop fetch cfg (fuel + 1) results before).fetches =
      [build_url cfg.rank cfg.lang before] := by
  have happ := appendUpTo_take cfg.limit (parse_matches page) results
    (le_of_lt hlt)
  have hfull :
      ¬ ((appendUpTo cfg.limit results (parse_matches page)).length : Int) <
        cfg.limit := by
    rw [happ]
    simp only [List.length_append, List.length_take]
    have hmin : min ((cfg.limit - results.length : Int)).toNat
        (parse_matches page).length =
        ((cfg.limit - results.length : Int)).toNat := by
      apply Nat.min_eq_left
      omega
    rw [hmin]
    omega
  have hmsb : (parse_matches page).isEmpty = false := by
    cases hpm : parse_matches page with
    | nil => exact absurd hpm hms
    | cons a l => rfl
  simp only [crawlLoop, if_pos hlt, hf, hmsb, Bool.false_eq_true, if_false]
  split
  · exact ⟨happ, rfl⟩
  · have hdone := crawlLoop_done fetch cfg fuel
      (appendUpTo cfg.limit results (parse_matches page))
      (extract_next_before page) hfull
    refine ⟨?_, ?_⟩
    · simp only [hdone.1]
      exact happ
    · simp only [hdone.2]

set_option maxRecDepth 8000 in
/-- C4 witness: limit 5 against a page of 8 matches keeps exactly the first
5 and fetches exactly one page. -/
theorem c4_limit_midpage_witness :
    ((crawlLoop (fun _ => some page128) cfg5 1 [] none).results =
      ([] : List RMatch) ++
        (parse_matches page128).take
          ((cfg5.limit - (([] : List RMatch).length : Int)).toNat) ∧
    (crawlLoop (fun _ => some page128) cfg5 1 [] none).fetches =
      [build_url cfg5.rank cfg5.lang none]) ∧
    (crawlLoop (fun _ => some page128) cfg5 1 [] none).results.length = 5 :=
  ⟨c4_limit_midpage (fun _ => some page128) cfg5 0 [] none page128
      (by decide) (by rfl) (by decide) (by decide),
    by decide⟩

/-- C3 counterexample: `pageCursor0` yields one match and a present next
cursor 0, different from the current cursor (`none`), with the limit far
from reached — yet the crawl performs exactly the one fetch and stops,
because `if not next_before` treats the cursor 0 as falsy; the claim's
"advances ... and continues (including ... 0)" fails here. -/
theorem c3_cursor_zero_counterexample :
    extract_next_before pageCursor0 = some 0 ∧
    (some (0 : Int) ≠ (none : Option Int)) ∧
    parse_matches pageCursor0 ≠ [] ∧
    (crawlLoop (fun _ => some pageCursor0) cfg1000 5 [] none).fetches =
      [build_url cfg1000.rank cfg1000.lang none] ∧
    (crawlLoop (fun _ => some pageCursor0) cfg1000 5 [] none).results.length
      = 1 :=
  ⟨by decide, by decide, by decide, by rfl, by decide⟩

/-- The loop guard's Boolean, characterized: it stops exactly on an absent
cursor, the cursor 0 (Python falsiness), or an unchanged cursor. -/
theorem guard_iff (nb before : Option Int) :
    (cursorFalsy nb || decide (nb = before)) = true ↔
      (nb = none ∨ nb = some 0 ∨ nb = before) := by
  cases nb with
  | none => simp [cursorFalsy]
  | some v =>
    simp [cursorFalsy]

/-- An iteration started below the limit always fetches its page URL
first. -/
theorem crawlLoop_fetches_head (fetch : Str → Option Node) (cfg : Config)
    (fuel : Nat) (results : List RMatch) (b : Option Int)
    (hlt : (results.length : Int) < cfg.limit) :
    ∃ tail, (crawlLoop fetch cfg (fuel + 1) results b).fetches =
      build_url cfg.rank cfg.lang b :: tail := by
  simp only [crawlLoop, if_pos hlt]
  cases hf : fetch (build_url cfg.rank cfg.lang b) with
  | none => exact ⟨[], rfl⟩
  | some page =>
    by_cases hms : (parse_matches page).isEmpty = true
    · simp only [hms, if_true]
      exact ⟨[], rfl⟩
    · simp only [if_neg hms]
      split
      · exact ⟨[], rfl⟩
      · exact ⟨_, rfl⟩

/-- C3 amended: in an iteration that collected at least one match and has
not reached the limit, the crawl stops if and only if the extracted next
cursor is absent, equal to 0, or equal to the current cursor; for any other
extracted cursor it advances to that cursor and fetches the next page from
it. -/
theorem c3_cursor_guard_amended (fetch : Str → Option Node) (cfg : Config)
    (fuel : Nat) (results : List RMatch) (before : Option Int) (page : Node)
    (hlt : (results.length : Int) < cfg.limit)
    (hf : fetch (build_url cfg.rank cfg.lang before) = some page)
    (hms : parse_matches page ≠ [])
    (hlt2 : ((appendUpTo cfg.limit results
      (parse_matches page)).length : Int) < cfg.limit)
    (hfuel : 1 ≤ fuel) :
    ((crawlLoop fetch cfg (fuel + 1) results before).fetches =
        [build_url cfg.rank cfg.lang before] ↔
      (extract_next_before page = none ∨ extract_next_before page = some 0 ∨
        extract_next_before page = before)) ∧
    ((extract_next_before page ≠ none ∧ extract_next_before page ≠ some 0 ∧
        extract_next_before page ≠ before) →
      (crawlLoop fetch cfg (fuel + 1) results before).fetches.take 2 =
        [build_url cfg.rank cfg.lang before,
          build_url cfg.rank cfg.lang (extract_next_before page)]) := by
  have hmsb : (parse_matches page).isEmpty = false := by
    cases hpm : parse_matches page with
    | nil => exact absurd hpm hms
    | cons a l => rfl
  simp only [crawlLoop, if_pos hlt, hf, hmsb, Bool.false_eq_true, if_false]
  by_cases hg : extract_next_before page = none ∨
      extract_next_before page = some 0 ∨ extract_next_before page = before
  · rw [if_pos ((guard_iff (extract_next_before page) before).mpr hg)]
    refine ⟨⟨fun _ => hg, fun _ => rfl⟩, fun hno => ?_⟩
    exact absurd hg (by tauto)
  · rw [if_neg (fun hb => hg ((guard_iff (extract_next_before page) before).mp hb))]
    obtain ⟨f, rfl⟩ : ∃ f, fuel = f + 1 := ⟨fuel - 1, by omega⟩
    obtain ⟨tail, htail⟩ := crawlLoop_fetches_head fetch cfg f
      (appendUpTo cfg.limit results (parse_matches page))
      (extract_next_before page) hlt2
    refine ⟨⟨fun habs => ?_, fun hg2 => absurd hg2 hg⟩, fun _ => ?_⟩
    · rw [htail] at habs
      simp at habs
    · rw [htail]
      rfl

/-- C3 amended witness: with a concrete first page carrying next cursor 7,
the crawl advances and the second fetch is the URL built from cursor 7. -/
theorem c3_cursor_guard_amended_witness :
    (crawlLoop fetchC3 cfg1000 2 [] none).fetches.take 2 =
      [build_url cfg1000.rank cfg1000.lang none,
        build_url cfg1000.rank cfg1000.lang
          (extract_next_before pageCursor7)] :=
  (c3_cursor_guard_amended fetchC3 cfg1000 1 [] none pageCursor7
      (by decide) (by rfl) (by decide) (by decide) (by decide)).2
    ⟨by decide, by decide, by decide⟩
